import Mathlib

/-
Verification of the query-context-aware usefulness engine of the hindsight
repository.  The engine itself (ScoreStore, SignalIngestor, Decayer,
RecallBooster, StatsAggregator) is not present in the source tree - only its
integration tests (tests/test_feedback_signal_api.py), the database migration
(alembic/versions/g2b3c4d5e6f7_add_query_fact_usefulness.py) and client SDKs
are.  The engine is therefore modelled from the specification (spec.md,
sections 3, 4.B-4.F, 6 and 8); the migration, which is present, is embedded
directly from its source.

Scores, confidences and timestamps are modelled as rationals so that the
update rule is exactly executable; the exponential decay factor
exp(-lambda * dt_days) is abstracted as a function `f : Q -> Q` of dt_days
where the model needs only its algebraic properties, and is modelled over
the reals with `Real.exp` where the claims are about the decay formula
itself.
-/

namespace Hindsight

/-- Modelled from the spec: the four feedback signal kinds,
`signal_type ∈ {used, helpful, ignored, not_helpful}` (section 3). -/
inductive SignalType where
  | used
  | helpful
  | ignored
  | notHelpful
deriving DecidableEq

/-- Modelled from the spec: `weight(signal_type)` =
{ used: +1.0, helpful: +1.5, ignored: -0.5, not_helpful: -1.0 }
(section 4.C step 5). -/
def weight : SignalType → ℚ
  | .used => 1
  | .helpful => 3/2
  | .ignored => -1/2
  | .notHelpful => -1

/-- Modelled from the spec: the learning rate `η = 0.1` (section 4.C). -/
def eta : ℚ := 1/10

/-- Modelled from the spec: the context-merge similarity threshold
`θ_merge = 0.85` (sections 3 and 4.C). -/
def thetaMerge : ℚ := 17/20

/-- Modelled from the spec: `clamp(x, 0.0, 1.0)` used in
`new_score = clamp(old_score + delta, 0.0, 1.0)` (section 4.C step 5). -/
def clamp01 (x : ℚ) : ℚ := if x < 0 then 0 else if 1 < x then 1 else x

/-- Modelled from the spec: the decay formula
`new_score = 0.5 + (score - 0.5) × exp(-λ × Δt_days)` (section 4.D), with
the exponential factor `exp(-λ × Δt_days)` abstracted as `factor`. -/
def decayQ (s : ℚ) (factor : ℚ) : ℚ := 1/2 + (s - 1/2) * factor

/-- Modelled from the spec: a QueryContextScore record (section 3), the
central entity: one record per (bank, fact, query-context).  Timestamps are
rationals (seconds). -/
structure Ctx (E : Type) where
  id : ℕ
  bankId : String
  factId : String
  emb : E
  score : ℚ
  count : ℕ
  lastDecayAt : ℚ
deriving DecidableEq

/-- Modelled from the spec: a Signal audit entry (section 3). -/
structure Sig (E : Type) where
  bankId : String
  factId : String
  sigType : SignalType
  confidence : ℚ
  emb : E
deriving DecidableEq

/-- Modelled from the spec: the ScoreStore state (section 4.B): the stored
QueryContextScore records, the append-only Signal audit log, and a counter
supplying fresh opaque ids. -/
structure Store (E : Type) where
  ctxs : List (Ctx E)
  sigs : List (Sig E)
  nextId : ℕ
deriving DecidableEq

/-- Modelled from the spec: the store before any signal. -/
def emptyStore (E : Type) : Store E := ⟨[], [], 0⟩

/-- Modelled from the spec: whether a context row belongs to a given
(bank_id, fact_id) pair. -/
def sameKey (b f : String) (c : Ctx E) : Bool := c.bankId == b && c.factId == f

/-- Modelled from the spec: `find_nearest(fact_id, query_embedding)` of the
ScoreStore (section 4.B): the stored context for that (bank, fact) with the
highest cosine similarity to the query embedding, where `sim` is the
similarity function. -/
def findNearest (sim : E → E → ℚ) (b f : String) (q : E) (l : List (Ctx E)) :
    Option (Ctx E) :=
  (l.filter (sameKey b f)).argmax (fun c => sim q c.emb)

/-- Modelled from the spec: a freshly created context,
`usefulness_score = 0.5`, `signal_count = 0` (section 4.C step 3),
`last_decay_at` initialized to creation time (section 3). -/
def newContext (nid : ℕ) (b f : String) (q : E) (now : ℚ) : Ctx E :=
  ⟨nid, b, f, q, 1/2, 0, now⟩

/-- Modelled from the spec: steps 4-6 of `apply_signal` (section 4.C) on the
target context: lazy decay with elapsed days `max(0, (now - last_decay_at) /
86400)` fed to the abstract exponential factor `f`, then
`new_score = clamp(old_score + weight × confidence × η, 0, 1)`,
`signal_count += 1`, and the decay timestamp advanced to `now`. -/
def updCtx (f : ℚ → ℚ) (now : ℚ) (t : SignalType) (conf : ℚ) (c : Ctx E) :
    Ctx E :=
  { c with
      score := clamp01 (decayQ c.score (f (max 0 ((now - c.lastDecayAt) / 86400)))
        + weight t * conf * eta)
      count := c.count + 1
      lastDecayAt := now }

/-- Modelled from the spec: the atomic `update` of the ScoreStore
(section 4.B), addressing the stored record by its opaque id. -/
def updateById (i : ℕ) (g : Ctx E → Ctx E) (l : List (Ctx E)) : List (Ctx E) :=
  l.map (fun c => if c.id = i then g c else c)

/-- Modelled from the spec: the create branch of `apply_signal` (section 4.C
step 3): a new context with `usefulness_score = 0.5`, `signal_count = 0` is
created, the update rule (steps 4-6) is applied to it, and a Signal audit
record is appended. -/
def createAndApply (f : ℚ → ℚ) (now : ℚ) (b fid : String) (q : E)
    (t : SignalType) (conf : ℚ) (st : Store E) : Store E :=
  ⟨st.ctxs ++ [updCtx f now t conf (newContext st.nextId b fid q now)],
    st.sigs ++ [⟨b, fid, t, conf, q⟩], st.nextId + 1⟩

/-- Modelled from the spec: `apply_signal` (section 4.C).  The nearest stored
context for the (bank, fact) is looked up; if it exists with similarity
≥ θ_merge it is the target, else a new context with score 0.5 and count 0 is
created; the update rule is applied to the target, and a Signal audit record
is appended. -/
def applySignal (sim : E → E → ℚ) (f : ℚ → ℚ) (now : ℚ) (b fid : String)
    (q : E) (t : SignalType) (conf : ℚ) (st : Store E) : Store E :=
  match findNearest sim b fid q st.ctxs with
  | some c =>
      if thetaMerge ≤ sim q c.emb then
        ⟨updateById c.id (updCtx f now t conf) st.ctxs,
          st.sigs ++ [⟨b, fid, t, conf, q⟩], st.nextId⟩
      else createAndApply f now b fid q t conf st
  | none => createAndApply f now b fid q t conf st

/-- Modelled from the spec: one feedback-signal operation as submitted by a
client (section 4.C): a timestamp, bank, fact, query embedding, signal type
and confidence. -/
structure Op (E : Type) where
  now : ℚ
  bankId : String
  factId : String
  q : E
  t : SignalType
  conf : ℚ
deriving DecidableEq

/-- Modelled from the spec: a sequence of applied feedback signals
(section 8, score bounds and signal accounting are quantified over all such
sequences). -/
def applyOps (sim : E → E → ℚ) (f : ℚ → ℚ) (ops : List (Op E)) (st : Store E) :
    Store E :=
  ops.foldl (fun s o => applySignal sim f o.now o.bankId o.factId o.q o.t o.conf s) st

/-- A concrete similarity function on embeddings modelled as naturals: two
embeddings are fully similar exactly when they are equal.  Used to
instantiate the end-to-end scenarios of section 8 of the spec. -/
def simEq : ℕ → ℕ → ℚ := fun a b => if a == b then 1 else 0

/-- A concrete decay factor for signals applied in immediate succession:
`exp(-λ × 0) = 1`, so the factor is constantly 1. -/
def noDecay : ℚ → ℚ := fun _ => 1

/-- Scenario 2 of section 8 of the spec: ten consecutive "helpful" signals
with confidence 1.0 on one context of one fact, starting from an empty
store. -/
def tenHelpfulRun : Store ℕ :=
  applyOps simEq noDecay
    (List.replicate 10 ⟨0, "b", "f", 0, .helpful, 1⟩) (emptyStore ℕ)

/-- A store holding exactly one context, produced by one "used" signal with
confidence 1 on an empty store; used to instantiate witnesses. -/
def oneCtxStore : Store ℕ :=
  applyOps simEq noDecay [⟨0, "b", "f", 0, .used, 1⟩] (emptyStore ℕ)

/-- Scenario 3 of section 8 of the spec: two signals on the same fact whose
query embeddings are dissimilar (similarity 0 < θ_merge), resolving to two
distinct contexts. -/
def twoCtxRun : Store ℕ :=
  applyOps simEq noDecay
    [⟨0, "b", "f", 0, .helpful, 1⟩, ⟨0, "b", "f", 1, .notHelpful, 1⟩] (emptyStore ℕ)

/-- Every context of the store has its usefulness score inside [0, 1]
(invariant 1 of section 3 of the spec). -/
def boundsOk (st : Store E) : Prop := ∀ c ∈ st.ctxs, 0 ≤ c.score ∧ c.score ≤ 1

/-- The sum of `signal_count` over the stored contexts of one
(bank_id, fact_id) pair. -/
def countSum (b f : String) (l : List (Ctx E)) : ℕ :=
  ((l.filter (sameKey b f)).map (fun c => c.count)).sum

/-- Whether a Signal audit record belongs to a given (bank_id, fact_id). -/
def sigKey (b f : String) (s : Sig E) : Bool := s.bankId == b && s.factId == f

/-- The number of Signal audit records for one (bank_id, fact_id) pair. -/
def sigCount (b f : String) (sigs : List (Sig E)) : ℕ :=
  (sigs.filter (sigKey b f)).length

/-- Well-formedness of the opaque ids: stored ids are pairwise distinct and
below the fresh-id counter. -/
def idsOk (st : Store E) : Prop :=
  (st.ctxs.map (fun c => c.id)).Nodup ∧ ∀ i ∈ st.ctxs.map (fun c => c.id), i < st.nextId

/-- Invariant 3 of section 3 of the spec: per (bank, fact), the sum of
`signal_count` across contexts equals the number of audit Signal records. -/
def acct (st : Store E) : Prop :=
  ∀ b f : String, countSum b f st.ctxs = sigCount b f st.sigs

/-- Modelled from the spec: the per-fact stats roll-up of the
StatsAggregator (section 4.F): usefulness_score is the mean across contexts
weighted by signal_count, signal_count is the sum. -/
structure FactStats where
  score : ℚ
  count : ℕ
deriving DecidableEq

/-- Modelled from the spec: `fact_stats(bank_id, fact_id)` (section 4.F);
returns `none` (NotFound) if no contexts exist. -/
def factStats (st : Store E) (b f : String) : Option FactStats :=
  let l := st.ctxs.filter (sameKey b f)
  if l.isEmpty then none
  else some ⟨((l.map (fun c => c.score * (c.count : ℚ))).sum)
               / ((l.map (fun c => (c.count : ℚ))).sum),
             (l.map (fun c => c.count)).sum⟩

/-- Modelled from the spec: the HTTP surface of fact stats (section 6):
200 with the stats when contexts exist, 404 when none do. -/
def factStatsResponse (st : Store E) (b f : String) : ℕ × Option FactStats :=
  match factStats st b f with
  | none => (404, none)
  | some s => (200, some s)

/-- Modelled from the spec: the per-bank stats roll-up of the
StatsAggregator (section 4.F). -/
structure BankStats where
  totalFactsWithSignals : ℕ
  totalSignals : ℕ
  averageUsefulness : ℚ
deriving DecidableEq

/-- Modelled from the spec: `bank_stats(bank_id)` (section 4.F): the number
of distinct facts holding contexts, the total number of audit Signals for
the bank, and the average usefulness across the bank's contexts. -/
def bankStats (st : Store E) (b : String) : BankStats :=
  let l := st.ctxs.filter (fun c => c.bankId == b)
  ⟨((l.map (fun c => c.factId)).dedup).length,
   (st.sigs.filter (fun s => s.bankId == b)).length,
   ((l.map (fun c => c.score)).sum) / l.length⟩

/-- Modelled from the spec: the HTTP surface of bank stats (section 6):
`GET /stats/usefulness` has no error row - it always answers 200. -/
def bankStatsResponse (st : Store E) (b : String) : ℕ × BankStats :=
  (200, bankStats st b)

/-- Modelled from the spec: one signal item of a `POST /signal` request body
(section 6): fact id, signal type (as submitted, possibly invalid),
confidence, and the optional query text. -/
structure SignalItemReq where
  factId : String
  signalType : String
  confidence : ℚ
  query : Option String
deriving DecidableEq

/-- Modelled from the spec: a `POST /signal` request body (section 6). -/
structure SignalReq where
  signals : List SignalItemReq
deriving DecidableEq

/-- Modelled from the spec: parsing of the submitted signal type;
`signal_type ∈ {used, helpful, ignored, not_helpful}` (section 6). -/
def parseSignalType (s : String) : Option SignalType :=
  if s = "used" then some .used
  else if s = "helpful" then some .helpful
  else if s = "ignored" then some .ignored
  else if s = "not_helpful" then some .notHelpful
  else none

/-- Modelled from the spec: validation of one signal item (section 6):
recognized signal type, confidence in [0, 1], query present and non-empty. -/
def validItem (it : SignalItemReq) : Bool :=
  (parseSignalType it.signalType).isSome
    && (decide (0 ≤ it.confidence) && decide (it.confidence ≤ 1))
    && (match it.query with
        | some qs => !(qs == "")
        | none => false)

/-- Modelled from the spec: validation of a signal request (section 6):
`signals` non-empty and every item valid. -/
def validSignalReq (r : SignalReq) : Bool :=
  !r.signals.isEmpty && r.signals.all validItem

/-- Modelled from the spec: the `POST /signal` handler (sections 4.C, 6, 7):
a request failing validation is rejected with 422 and the store is left
untouched; a valid request applies each signal in order and answers 200. -/
def handleSignal (sim : E → E → ℚ) (f : ℚ → ℚ) (now : ℚ) (embed : String → E)
    (b : String) (r : SignalReq) (st : Store E) : ℕ × Store E :=
  if validSignalReq r then
    (200, r.signals.foldl (fun s it =>
      applySignal sim f now b it.factId (embed (it.query.getD ""))
        ((parseSignalType it.signalType).getD .used) it.confidence s) st)
  else (422, st)

/-- Modelled from the spec: validation of the recall boosting parameters
(section 6): `usefulness_weight ∈ [0,1]` and `min_usefulness ∈ [0,1]`. -/
def validRecallParams (w uMin : ℚ) : Bool :=
  (decide (0 ≤ w) && decide (w ≤ 1)) && (decide (0 ≤ uMin) && decide (uMin ≤ 1))

/-- Modelled from the spec: the status code of a recall request as far as the
usefulness parameters decide it (section 6): 422 on invalid parameters. -/
def recallStatus (w uMin : ℚ) : ℕ :=
  if validRecallParams w uMin then 200 else 422

/-- Modelled from the spec: one entry of `base_results` (section 4.E): a
fact id with its base retriever score. -/
structure RItem where
  factId : String
  base : ℚ
deriving DecidableEq

/-- Modelled from the spec: the recall boosting options (section 4.E). -/
structure BoostOpts where
  enabled : Bool
  w : ℚ
  uMin : ℚ
  sMin : ℚ
deriving DecidableEq

/-- Modelled from the spec: the contextual usefulness of a fact for a query
(section 4.E step 2): neutral 0.5 when no context exists or the nearest one
is below the similarity floor, else the lazily decayed stored score. -/
def usefulnessFor (sim : E → E → ℚ) (f : ℚ → ℚ) (now : ℚ) (st : Store E)
    (b : String) (q : E) (sMin : ℚ) (fid : String) : ℚ :=
  match findNearest sim b fid q st.ctxs with
  | none => 1/2
  | some c =>
      if sim q c.emb < sMin then 1/2
      else decayQ c.score (f (max 0 ((now - c.lastDecayAt) / 86400)))

/-- Modelled from the spec: `final = (1 - w) × base_score + w × u`
(section 4.E step 2). -/
def finalScore (w u base : ℚ) : ℚ := (1 - w) * base + w * u

/-- Modelled from the spec: the sort order of boosted results (section 4.E
step 3): descending by final score, ties broken by original base score; the
sort itself is stable, which subsumes the residual fact-id tie-break for the
identity guarantee. -/
def boostLE (a b : RItem × ℚ) : Prop :=
  b.2 < a.2 ∨ (a.2 = b.2 ∧ b.1.base ≤ a.1.base)

instance : DecidableRel boostLE := fun a b => by
  unfold boostLE
  infer_instance

/-- Modelled from the spec: `boost(bank_id, query, base_results, opts)`
(section 4.E).  When disabled it returns `base_results` unchanged; when
enabled it attaches a contextual usefulness to each entry, drops entries
below `min_usefulness`, blends base score and usefulness, and stably sorts
by the blended score. -/
def boost (sim : E → E → ℚ) (f : ℚ → ℚ) (now : ℚ) (st : Store E) (b : String)
    (q : E) (opts : BoostOpts) (base : List RItem) : List RItem :=
  if opts.enabled = false then base
  else
    (((((base.map (fun r =>
          (r, usefulnessFor sim f now st b q opts.sMin r.factId))).filter
            (fun p => decide (opts.uMin ≤ p.2))).map
              (fun p => (p.1, finalScore opts.w p.2 p.1.base))).insertionSort
                boostLE).map (fun p => p.1))

/-- Modelled from the spec: the Decayer (section 4.D) over the reals:
`new_score = 0.5 + (score - 0.5) × exp(-λ × Δt_days)` with
`Δt_days = max(0, (now - last_decay_at) / 86400)` and `λ = 0.01`. -/
noncomputable def decayScore (score lastDecayAt now : ℝ) : ℝ :=
  1/2 + (score - 1/2) * Real.exp (-(1/100) * max 0 ((now - lastDecayAt) / 86400))

/-- Column types appearing in the migration
g2b3c4d5e6f7_add_query_fact_usefulness. -/
inductive ColType where
  | uuid
  | text
  | vector (dim : ℕ)
  | float
  | integer
  | timestamptz
deriving DecidableEq

/-- A column definition as issued by the migration: name, type, nullability
and server-side default expression. -/
structure Column where
  name : String
  colType : ColType
  nullable : Bool
  serverDefault : Option String
deriving DecidableEq

/-- An index definition as issued by the migration: name, table, columns,
access method (postgresql_using) and operator class (postgresql_ops). -/
structure TblIndex where
  name : String
  table : String
  columns : List String
  method : Option String
  opclass : Option String
deriving DecidableEq

/-- The columns of the `query_fact_usefulness` table exactly as created by
`upgrade()` of the migration g2b3c4d5e6f7_add_query_fact_usefulness, in
source order. -/
def queryFactUsefulnessColumns : List Column :=
  [⟨"id", .uuid, false, some "gen_random_uuid()"⟩,
   ⟨"bank_id", .text, false, none⟩,
   ⟨"fact_id", .uuid, false, none⟩,
   ⟨"query_embedding", .vector 384, false, none⟩,
   ⟨"query_example", .text, true, none⟩,
   ⟨"usefulness_score", .float, false, some "0.5"⟩,
   ⟨"signal_count", .integer, false, some "0"⟩,
   ⟨"last_signal_at", .timestamptz, true, none⟩,
   ⟨"last_decay_at", .timestamptz, false, some "now()"⟩,
   ⟨"created_at", .timestamptz, false, some "now()"⟩,
   ⟨"updated_at", .timestamptz, false, some "now()"⟩]

/-- The indexes created by `upgrade()` of the migration, in source order. -/
def migrationIndexes : List TblIndex :=
  [⟨"idx_query_fact_usefulness_bank_id", "query_fact_usefulness",
      ["bank_id"], none, none⟩,
   ⟨"idx_query_fact_usefulness_fact_id", "query_fact_usefulness",
      ["fact_id"], none, none⟩,
   ⟨"idx_query_fact_usefulness_bank_fact", "query_fact_usefulness",
      ["bank_id", "fact_id"], none, none⟩,
   ⟨"idx_query_fact_usefulness_embedding", "query_fact_usefulness",
      ["query_embedding"], some "hnsw", some "vector_cosine_ops"⟩]

/-- The column added to the audit table `usefulness_signals` by
`upgrade()` of the migration. -/
def usefulnessSignalsAddedColumn : Column :=
  ⟨"query_embedding", .vector 384, true, none⟩

/-- Invariant 2 of section 3 of the spec: for any (bank_id, fact_id), the
stored query embeddings are ε-separated: no two have similarity ≥ θ_merge. -/
def sep (sim : E → E → ℚ) (st : Store E) : Prop :=
  ∀ b f : String, (st.ctxs.filter (sameKey b f)).Pairwise
    (fun c d => sim c.emb d.emb < thetaMerge)

/-- Definition following the spec words: the column names of the
QueryContextScore entity of section 3 of the spec, in section order. -/
def specSection3ColumnNames : List String :=
  ["id", "bank_id", "fact_id", "query_embedding", "query_example",
   "usefulness_score", "signal_count", "last_signal_at", "last_decay_at",
   "created_at", "updated_at"]

/-- Column lookup by name. -/
def colByName (n : String) (l : List Column) : Option Column :=
  l.find? (fun c => c.name == n)

section ScoreBounds

variable {E : Type}

/-- The clamp always lands in the unit interval. -/
lemma clamp01_bounds (x : ℚ) : 0 ≤ clamp01 x ∧ clamp01 x ≤ 1 := by
  unfold clamp01
  split_ifs <;> constructor <;> linarith

lemma updCtx_score_bounds (f : ℚ → ℚ) (now : ℚ) (t : SignalType) (conf : ℚ)
    (c : Ctx E) : 0 ≤ (updCtx f now t conf c).score ∧ (updCtx f now t conf c).score ≤ 1 :=
  clamp01_bounds _

lemma boundsOk_createAndApply (f : ℚ → ℚ) (now : ℚ) (b fid : String) (q : E)
    (t : SignalType) (conf : ℚ) (st : Store E) (h : boundsOk st) :
    boundsOk (createAndApply f now b fid q t conf st) := by
  intro c hc
  simp only [createAndApply, List.mem_append, List.mem_singleton] at hc
  rcases hc with hc | rfl
  · exact h c hc
  · exact updCtx_score_bounds ..

lemma boundsOk_applySignal (sim : E → E → ℚ) (f : ℚ → ℚ) (now : ℚ)
    (b fid : String) (q : E) (t : SignalType) (conf : ℚ) (st : Store E)
    (h : boundsOk st) : boundsOk (applySignal sim f now b fid q t conf st) := by
  rcases hfn : findNearest sim b fid q st.ctxs with _ | c0
  · simpa only [applySignal, hfn] using boundsOk_createAndApply f now b fid q t conf st h
  · simp only [applySignal, hfn]
    split
    · intro c hc
      simp only [updateById, List.mem_map] at hc
      rcases hc with ⟨d, hd, rfl⟩
      split
      · exact updCtx_score_bounds ..
      · exact h d hd
    · exact boundsOk_createAndApply f now b fid q t conf st h

lemma boundsOk_applyOps (sim : E → E → ℚ) (f : ℚ → ℚ) (ops : List (Op E))
    (st : Store E) (h : boundsOk st) : boundsOk (applyOps sim f ops st) := by
  induction ops generalizing st with
  | nil => exact h
  | cons o ops ih =>
      exact ih _ (boundsOk_applySignal sim f o.now o.bankId o.factId o.q o.t o.conf st h)

end ScoreBounds

/-- C1: for every sequence of applied feedback signals, every stored
usefulness score lies in [0, 1] after every applied signal (applying any
prefix of the sequence instantiates the quantifier over sequences); and ten
consecutive "helpful" signals with confidence 1.0 (delta 0.15 each) on one
context leave a single context whose final score is clamped to exactly 1,
with signal count 10. -/
theorem claim_C1_score_bounds :
    (∀ (E : Type) (sim : E → E → ℚ) (f : ℚ → ℚ) (ops : List (Op E)) (c : Ctx E),
        c ∈ (applyOps sim f ops (emptyStore E)).ctxs → 0 ≤ c.score ∧ c.score ≤ 1)
    ∧ tenHelpfulRun.ctxs.map (fun c => (c.score, c.count)) = [(1, 10)] := by
  constructor
  · intro En sim f ops c hc
    refine boundsOk_applyOps sim f ops (emptyStore En) ?_ c hc
    intro d hd
    simp [emptyStore] at hd
  · norm_num [tenHelpfulRun, applyOps, applySignal, createAndApply, findNearest,
      updCtx, updateById, newContext, clamp01, decayQ, weight, eta, thetaMerge,
      sameKey, emptyStore, simEq, noDecay, List.argmax, List.argAux, List.replicate]

/-- Witness for C1 at a concrete input: the single context produced by one
"used" signal on an empty store has its score inside [0, 1]. -/
theorem claim_C1_score_bounds_witness :
    0 ≤ (Ctx.mk 0 "b" "f" 0 (3/5) 1 0 : Ctx ℕ).score
      ∧ (Ctx.mk 0 "b" "f" 0 (3/5) 1 0 : Ctx ℕ).score ≤ 1 := by
  refine claim_C1_score_bounds.1 ℕ simEq noDecay [⟨0, "b", "f", 0, .used, 1⟩] _ ?_
  norm_num [applyOps, applySignal, createAndApply, findNearest, updCtx,
    updateById, newContext, clamp01, decayQ, weight, eta, thetaMerge, sameKey,
    emptyStore, simEq, noDecay, List.argmax, List.argAux]

section Separation

variable {E : Type}

@[simp] lemma updCtx_id (f : ℚ → ℚ) (now : ℚ) (t : SignalType) (conf : ℚ)
    (c : Ctx E) : (updCtx f now t conf c).id = c.id := rfl

@[simp] lemma updCtx_bankId (f : ℚ → ℚ) (now : ℚ) (t : SignalType) (conf : ℚ)
    (c : Ctx E) : (updCtx f now t conf c).bankId = c.bankId := rfl

@[simp] lemma updCtx_factId (f : ℚ → ℚ) (now : ℚ) (t : SignalType) (conf : ℚ)
    (c : Ctx E) : (updCtx f now t conf c).factId = c.factId := rfl

@[simp] lemma updCtx_emb (f : ℚ → ℚ) (now : ℚ) (t : SignalType) (conf : ℚ)
    (c : Ctx E) : (updCtx f now t conf c).emb = c.emb := rfl

@[simp] lemma updCtx_count (f : ℚ → ℚ) (now : ℚ) (t : SignalType) (conf : ℚ)
    (c : Ctx E) : (updCtx f now t conf c).count = c.count + 1 := rfl

@[simp] lemma sameKey_updCtx (b fid : String) (f : ℚ → ℚ) (now : ℚ)
    (t : SignalType) (conf : ℚ) (c : Ctx E) :
    sameKey b fid (updCtx f now t conf c) = sameKey b fid c := rfl

lemma filter_updateById (b fid : String) (i : ℕ) (f : ℚ → ℚ) (now : ℚ)
    (t : SignalType) (conf : ℚ) (l : List (Ctx E)) :
    (updateById i (updCtx f now t conf) l).filter (sameKey b fid)
      = (l.filter (sameKey b fid)).map
          (fun c => if c.id = i then updCtx f now t conf c else c) := by
  unfold updateById
  rw [List.filter_map]
  congr 1
  apply List.filter_congr
  intro c _
  by_cases h : c.id = i <;> simp [h]

lemma mem_of_findNearest (sim : E → E → ℚ) (b fid : String) (q : E)
    (l : List (Ctx E)) (c0 : Ctx E) (hfn : findNearest sim b fid q l = some c0) :
    c0 ∈ l.filter (sameKey b fid) :=
  List.argmax_mem (Option.mem_def.mpr hfn)

lemma le_nearest (sim : E → E → ℚ) (b fid : String) (q : E) (l : List (Ctx E))
    (c0 a : Ctx E) (ha : a ∈ l.filter (sameKey b fid))
    (hfn : findNearest sim b fid q l = some c0) :
    sim q a.emb ≤ sim q c0.emb := by
  have hfn2 : (l.filter (sameKey b fid)).argmax (fun c => sim q c.emb) = some c0 := hfn
  exact List.le_of_mem_argmax (f := fun c => sim q c.emb) (a := a) (m := c0)
    ha (Option.mem_def.mpr hfn2)

/-- The create branch is taken exactly when every stored context for the
(bank, fact) is strictly below the merge threshold. -/
lemma applySignal_create_of_far (sim : E → E → ℚ) (f : ℚ → ℚ) (now : ℚ)
    (b fid : String) (q : E) (t : SignalType) (conf : ℚ) (st : Store E)
    (hall : ∀ a ∈ st.ctxs.filter (sameKey b fid), sim q a.emb < thetaMerge) :
    applySignal sim f now b fid q t conf st = createAndApply f now b fid q t conf st := by
  rcases hfn : findNearest sim b fid q st.ctxs with _ | c0
  · simp [applySignal, hfn]
  · have hmem := mem_of_findNearest sim b fid q st.ctxs c0 hfn
    simp [applySignal, hfn, not_le.mpr (hall c0 hmem)]

/-- The update branch is taken as soon as some stored context for the
(bank, fact) reaches the merge threshold: the nearest one is updated in
place and no context is created. -/
lemma applySignal_update_of_near (sim : E → E → ℚ) (f : ℚ → ℚ) (now : ℚ)
    (b fid : String) (q : E) (t : SignalType) (conf : ℚ) (st : Store E)
    (hnear : ∃ a ∈ st.ctxs.filter (sameKey b fid), thetaMerge ≤ sim q a.emb) :
    ∃ c0, findNearest sim b fid q st.ctxs = some c0
      ∧ thetaMerge ≤ sim q c0.emb
      ∧ applySignal sim f now b fid q t conf st
          = ⟨updateById c0.id (updCtx f now t conf) st.ctxs,
              st.sigs ++ [⟨b, fid, t, conf, q⟩], st.nextId⟩ := by
  rcases hnear with ⟨a, ha, hθ⟩
  rcases hfn : findNearest sim b fid q st.ctxs with _ | c0
  · rw [findNearest, List.argmax_eq_none] at hfn
    rw [hfn] at ha
    simp at ha
  · have hle := le_nearest sim b fid q st.ctxs c0 a ha hfn
    exact ⟨c0, rfl, le_trans hθ hle, by simp [applySignal, hfn, le_trans hθ hle]⟩

lemma sameKey_eq_of_mem_filter (b fid : String) (c : Ctx E) (l : List (Ctx E))
    (h : c ∈ l.filter (sameKey b fid)) : c.bankId = b ∧ c.factId = fid := by
  have := (List.mem_filter.mp h).2
  simp [sameKey] at this
  exact this

lemma sep_createAndApply (sim : E → E → ℚ) (hsym : ∀ a b, sim a b = sim b a)
    (f : ℚ → ℚ) (now : ℚ) (b fid : String) (q : E) (t : SignalType) (conf : ℚ)
    (st : Store E) (h : sep sim st)
    (hall : ∀ a ∈ st.ctxs.filter (sameKey b fid), sim q a.emb < thetaMerge) :
    sep sim (createAndApply f now b fid q t conf st) := by
  intro b2 f2
  simp only [createAndApply]
  rw [List.filter_append, List.pairwise_append]
  refine ⟨h b2 f2, ?_, ?_⟩
  · rcases List.filter_sublist (l := [updCtx f now t conf (newContext st.nextId b fid q now)])
      (p := sameKey b2 f2) |>.subperm.length_le with _
    rcases hl : List.filter (sameKey b2 f2)
        [updCtx f now t conf (newContext st.nextId b fid q now)] with _ | ⟨x, xs⟩
    · exact List.Pairwise.nil
    · have : xs = [] := by
        have hlen := congrArg List.length hl
        have := List.length_filter_le (sameKey b2 f2)
          [updCtx f now t conf (newContext st.nextId b fid q now)]
        rw [hl] at this
        simp at this
        simpa using this
      subst this
      simp
  · intro a ha x hx
    simp only [List.mem_filter, List.mem_singleton] at hx
    rcases hx with ⟨rfl, hkx⟩
    simp only [sameKey_updCtx, sameKey, newContext] at hkx
    have hb2 : b = b2 ∧ fid = f2 := by
      constructor <;> [skip; skip] <;> simp_all
    rcases hb2 with ⟨rfl, rfl⟩
    have hka := sameKey_eq_of_mem_filter b fid a st.ctxs (by
      have := List.mem_filter.mp ha
      exact List.mem_filter.mpr this)
    have haf : a ∈ st.ctxs.filter (sameKey b fid) := ha
    have := hall a haf
    simp only [updCtx_emb]
    show sim a.emb (newContext st.nextId b fid q now).emb < thetaMerge
    rw [show (newContext st.nextId b fid q now).emb = q from rfl, hsym]
    exact this

lemma sep_applySignal (sim : E → E → ℚ) (hsym : ∀ a b, sim a b = sim b a)
    (f : ℚ → ℚ) (now : ℚ) (b fid : String) (q : E) (t : SignalType) (conf : ℚ)
    (st : Store E) (h : sep sim st) :
    sep sim (applySignal sim f now b fid q t conf st) := by
  by_cases hfar : ∀ a ∈ st.ctxs.filter (sameKey b fid), sim q a.emb < thetaMerge
  · rw [applySignal_create_of_far sim f now b fid q t conf st hfar]
    exact sep_createAndApply sim hsym f now b fid q t conf st h hfar
  · push_neg at hfar
    rcases hfar with ⟨a, ha, hθ⟩
    rcases applySignal_update_of_near sim f now b fid q t conf st ⟨a, ha, hθ⟩ with
      ⟨c0, hfn, hθ0, heq⟩
    rw [heq]
    intro b2 f2
    show ((updateById c0.id (updCtx f now t conf) st.ctxs).filter (sameKey b2 f2)).Pairwise _
    rw [filter_updateById]
    rw [List.pairwise_map]
    refine (h b2 f2).imp ?_
    intro u v huv
    by_cases h1 : u.id = c0.id <;> by_cases h2 : v.id = c0.id <;>
      simp [h1, h2, huv]

lemma sep_applyOps (sim : E → E → ℚ) (hsym : ∀ a b, sim a b = sim b a)
    (f : ℚ → ℚ) (ops : List (Op E)) (st : Store E) (h : sep sim st) :
    sep sim (applyOps sim f ops st) := by
  induction ops generalizing st with
  | nil => exact h
  | cons o ops ih =>
      exact ih _ (sep_applySignal sim hsym f o.now o.bankId o.factId o.q o.t o.conf st h)

end Separation

/-- C2: for every (bank, fact) of a store reached by any signal sequence, no
two stored query embeddings have similarity ≥ θ_merge = 0.85 (for any
symmetric similarity); a signal whose query embedding reaches 0.85 on some
existing context of the (bank, fact) updates the nearest such context in
place and creates no new context; and a signal strictly below 0.85 on every
existing context appends a new context whose initial usefulness score is 0.5
and initial signal count is 0, to which the signal update is then applied. -/
theorem claim_C2_context_separation :
    (∀ (E : Type) (sim : E → E → ℚ), (∀ a b, sim a b = sim b a) →
      ∀ (f : ℚ → ℚ) (ops : List (Op E)) (b fid : String),
        ((applyOps sim f ops (emptyStore E)).ctxs.filter (sameKey b fid)).Pairwise
          (fun c d => sim c.emb d.emb < thetaMerge))
    ∧ (∀ (E : Type) (sim : E → E → ℚ) (f : ℚ → ℚ) (now : ℚ) (b fid : String)
        (q : E) (t : SignalType) (conf : ℚ) (st : Store E),
        (∃ a ∈ st.ctxs.filter (sameKey b fid), thetaMerge ≤ sim q a.emb) →
        (applySignal sim f now b fid q t conf st).ctxs.length = st.ctxs.length
        ∧ ∃ c0, findNearest sim b fid q st.ctxs = some c0
            ∧ (applySignal sim f now b fid q t conf st).ctxs
                = updateById c0.id (updCtx f now t conf) st.ctxs)
    ∧ (∀ (E : Type) (sim : E → E → ℚ) (f : ℚ → ℚ) (now : ℚ) (b fid : String)
        (q : E) (t : SignalType) (conf : ℚ) (st : Store E),
        (∀ a ∈ st.ctxs.filter (sameKey b fid), sim q a.emb < thetaMerge) →
        (applySignal sim f now b fid q t conf st).ctxs
            = st.ctxs ++ [updCtx f now t conf (newContext st.nextId b fid q now)]
          ∧ (newContext st.nextId b fid q now).score = 1/2
          ∧ (newContext st.nextId b fid q now).count = 0) := by
  refine ⟨?_, ?_, ?_⟩
  · intro En sim hsym f ops b fid
    refine sep_applyOps sim hsym f ops (emptyStore En) ?_ b fid
    intro b2 f2
    simp [emptyStore]
  · intro En sim f now b fid q t conf st hnear
    rcases applySignal_update_of_near sim f now b fid q t conf st hnear with
      ⟨c0, hfn, hθ, heq⟩
    rw [heq]
    exact ⟨by simp [updateById], c0, hfn, rfl⟩
  · intro En sim f now b fid q t conf st hall
    rw [applySignal_create_of_far sim f now b fid q t conf st hall]
    exact ⟨rfl, rfl, rfl⟩

lemma oneCtxStore_ctxs : oneCtxStore.ctxs = [⟨0, "b", "f", 0, 3/5, 1, 0⟩] := by
  norm_num [oneCtxStore, applyOps, applySignal, createAndApply, findNearest,
    updCtx, updateById, newContext, clamp01, decayQ, weight, eta, thetaMerge,
    sameKey, emptyStore, simEq, noDecay, List.argmax, List.argAux]

/-- Witness for C2 at concrete inputs: the separation invariant after one
"used" signal; a second signal with an identical query embedding does not
grow the context list; a signal with an orthogonal query embedding appends a
fresh context initialized at score 0.5, count 0. -/
theorem claim_C2_context_separation_witness :
    ((applyOps simEq noDecay [⟨0, "b", "f", 0, .used, 1⟩] (emptyStore ℕ)).ctxs.filter
        (sameKey "b" "f")).Pairwise (fun c d => simEq c.emb d.emb < thetaMerge)
    ∧ (applySignal simEq noDecay 0 "b" "f" 0 .used 1 oneCtxStore).ctxs.length
        = oneCtxStore.ctxs.length
    ∧ (applySignal simEq noDecay 0 "b" "f" 1 .used 1 oneCtxStore).ctxs
        = oneCtxStore.ctxs
          ++ [updCtx noDecay 0 .used 1 (newContext oneCtxStore.nextId "b" "f" 1 0)] := by
  have hsym : ∀ a b : ℕ, simEq a b = simEq b a := by
    intro a b
    unfold simEq
    by_cases h : a = b
    · subst h; rfl
    · simp [h, Ne.symm h]
  refine ⟨claim_C2_context_separation.1 ℕ simEq hsym noDecay _ "b" "f", ?_, ?_⟩
  · refine (claim_C2_context_separation.2.1 ℕ simEq noDecay 0 "b" "f" 0 .used 1
      oneCtxStore ?_).1
    rw [oneCtxStore_ctxs]
    refine ⟨⟨0, "b", "f", 0, 3/5, 1, 0⟩, ?_, ?_⟩
    · simp [sameKey]
    · norm_num [simEq, thetaMerge]
  · refine (claim_C2_context_separation.2.2 ℕ simEq noDecay 0 "b" "f" 1 .used 1
      oneCtxStore ?_).1
    rw [oneCtxStore_ctxs]
    intro a ha
    simp [sameKey] at ha
    try subst ha
    norm_num [simEq, thetaMerge]

/-- C3: on a fact with no existing query context, a single "used" signal
with confidence 1.0 creates exactly one context for the (bank, fact), whose
usefulness score is exactly 0.5 + 1.0 × 1.0 × 0.1 = 0.6 = 3/5 (hence within
1e-6 of 0.6) and whose signal count is 1.  The hypothesis `f 0 = 1` is the
decay factor `exp(-λ × 0) = 1` of a context decayed at its creation time. -/
theorem claim_C3_first_used_signal :
    ∀ (E : Type) (sim : E → E → ℚ) (f : ℚ → ℚ) (now : ℚ) (b fid : String)
      (q : E) (st : Store E), f 0 = 1 → st.ctxs.filter (sameKey b fid) = [] →
      ((applySignal sim f now b fid q .used 1 st).ctxs.filter (sameKey b fid)).map
          (fun c => (c.score, c.count)) = [(3/5, 1)] := by
  intro En sim f now b fid q st hf0 hempty
  have hall : ∀ a ∈ st.ctxs.filter (sameKey b fid), sim q a.emb < thetaMerge := by
    rw [hempty]
    simp
  rw [applySignal_create_of_far sim f now b fid q .used 1 st hall]
  simp only [createAndApply]
  rw [List.filter_append, hempty]
  have hk : sameKey b fid (updCtx f now .used 1 (newContext st.nextId b fid q now))
      = true := by
    simp [sameKey, newContext]
  have h0 : max (0 : ℚ) ((now - now) / 86400) = 0 := by
    rw [sub_self, zero_div, max_self]
  simp only [List.nil_append, List.filter_cons, hk, if_true, List.filter_nil,
    List.map_cons, List.map_nil]
  norm_num [updCtx, newContext, h0, hf0, decayQ, weight, eta, clamp01]

/-- Witness for C3 at a concrete input: one "used" signal on the empty
store. -/
theorem claim_C3_first_used_signal_witness :
    ((applySignal simEq noDecay 0 "b" "f" 0 .used 1 (emptyStore ℕ)).ctxs.filter
        (sameKey "b" "f")).map (fun c => (c.score, c.count)) = [(3/5, 1)] := by
  refine claim_C3_first_used_signal ℕ simEq noDecay 0 "b" "f" 0 (emptyStore ℕ) rfl ?_
  simp [emptyStore]

section Accounting

variable {E : Type}

lemma updateById_eq_self (i : ℕ) (g : Ctx E → Ctx E) (l : List (Ctx E))
    (h : ∀ c ∈ l, c.id ≠ i) : updateById i g l = l := by
  induction l with
  | nil => rfl
  | cons c l ih =>
      unfold updateById
      simp only [List.map_cons]
      rw [if_neg (h c (List.mem_cons_self c l))]
      congr 1
      exact ih (fun d hd => h d (List.mem_cons_of_mem c hd))

lemma countSum_cons (b f : String) (c : Ctx E) (l : List (Ctx E)) :
    countSum b f (c :: l)
      = (if sameKey b f c then c.count else 0) + countSum b f l := by
  by_cases h : sameKey b f c <;> simp [countSum, List.filter_cons, h]

lemma countSum_append (b f : String) (l1 l2 : List (Ctx E)) :
    countSum b f (l1 ++ l2) = countSum b f l1 + countSum b f l2 := by
  simp [countSum, List.filter_append]

lemma sigCount_snoc (b f : String) (sigs : List (Sig E)) (s : Sig E) :
    sigCount b f (sigs ++ [s])
      = sigCount b f sigs + (if sigKey b f s then 1 else 0) := by
  by_cases h : sigKey b f s <;> simp [sigCount, List.filter_append, List.filter_cons, h]

lemma countSum_updateById (b f : String) (g : Ctx E → Ctx E) (t : Ctx E)
    (l : List (Ctx E)) (hnd : (l.map (fun c => c.id)).Nodup) (hmem : t ∈ l)
    (hb : (g t).bankId = t.bankId) (hf : (g t).factId = t.factId)
    (hc : (g t).count = t.count + 1) :
    countSum b f (updateById t.id g l)
      = countSum b f l + (if sameKey b f t then 1 else 0) := by
  induction l with
  | nil => cases hmem
  | cons c l ih =>
      rw [List.map_cons, List.nodup_cons] at hnd
      by_cases hid : c.id = t.id
      · have hct : c = t := by
          rcases List.mem_cons.mp hmem with h | h
          · exact h.symm
          · exact absurd (hid ▸ List.mem_map_of_mem (fun c => c.id) h) hnd.1
        subst hct
        have hl : updateById c.id g l = l := by
          refine updateById_eq_self _ _ _ (fun d hd hdi => hnd.1 ?_)
          exact hdi ▸ List.mem_map_of_mem (fun c => c.id) hd
        unfold updateById
        simp only [List.map_cons, eq_self_iff_true, if_true]
        unfold updateById at hl
        rw [hl, countSum_cons, countSum_cons]
        have hsk : sameKey b f (g c) = sameKey b f c := by
          simp [sameKey, hb, hf]
        rw [hsk, hc]
        by_cases h : sameKey b f c
        · simp only [if_pos h]
          omega
        · simp [h]
      · have htl : t ∈ l := by
          rcases List.mem_cons.mp hmem with h | h
          · exact absurd (h ▸ rfl) hid
          · exact h
        unfold updateById
        simp only [List.map_cons, if_neg hid]
        rw [countSum_cons, countSum_cons]
        have hrec := ih hnd.2 htl
        unfold updateById at hrec
        rw [hrec]
        omega

lemma updateById_map_id (i : ℕ) (f : ℚ → ℚ) (now : ℚ) (t : SignalType)
    (conf : ℚ) (l : List (Ctx E)) :
    (updateById i (updCtx f now t conf) l).map (fun c => c.id)
      = l.map (fun c => c.id) := by
  unfold updateById
  rw [List.map_map]
  apply List.map_congr_left
  intro c _
  by_cases h : c.id = i <;> simp [h]

lemma idsOk_createAndApply (f : ℚ → ℚ) (now : ℚ) (b fid : String) (q : E)
    (t : SignalType) (conf : ℚ) (st : Store E) (h : idsOk st) :
    idsOk (createAndApply f now b fid q t conf st) := by
  constructor
  · simp only [createAndApply, List.map_append, List.map_cons, List.map_nil]
    rw [List.nodup_append]
    refine ⟨h.1, by simp, ?_⟩
    intro i hi hi2
    simp only [updCtx_id, List.mem_singleton] at hi2
    have hlt := h.2 i hi
    simp only [newContext] at hi2
    omega
  · intro i hi
    simp only [createAndApply, List.map_append, List.map_cons, List.map_nil,
      List.mem_append, List.mem_singleton, updCtx_id] at hi
    rcases hi with hi | hi
    · exact lt_trans (h.2 i hi) (Nat.lt_succ_self _)
    · simp only [newContext] at hi
      simp [createAndApply, hi]

lemma idsOk_applySignal (sim : E → E → ℚ) (f : ℚ → ℚ) (now : ℚ)
    (b fid : String) (q : E) (t : SignalType) (conf : ℚ) (st : Store E)
    (h : idsOk st) : idsOk (applySignal sim f now b fid q t conf st) := by
  rcases hfn : findNearest sim b fid q st.ctxs with _ | c0
  · simpa only [applySignal, hfn] using idsOk_createAndApply f now b fid q t conf st h
  · simp only [applySignal, hfn]
    split
    · exact ⟨by rw [updateById_map_id]; exact h.1,
        by rw [updateById_map_id]; exact h.2⟩
    · exact idsOk_createAndApply f now b fid q t conf st h

lemma acct_applySignal (sim : E → E → ℚ) (f : ℚ → ℚ) (now : ℚ)
    (b fid : String) (q : E) (t : SignalType) (conf : ℚ) (st : Store E)
    (hids : idsOk st) (h : acct st) :
    acct (applySignal sim f now b fid q t conf st) := by
  by_cases hfar : ∀ a ∈ st.ctxs.filter (sameKey b fid), sim q a.emb < thetaMerge
  · rw [applySignal_create_of_far sim f now b fid q t conf st hfar]
    intro b2 f2
    simp only [createAndApply]
    rw [countSum_append, sigCount_snoc, h b2 f2]
    congr 1
    have hx : sameKey b2 f2 (updCtx f now t conf (newContext st.nextId b fid q now))
        = sigKey b2 f2 (⟨b, fid, t, conf, q⟩ : Sig E) := by
      simp [sameKey, sigKey, newContext]
    rw [countSum_cons, hx]
    by_cases hk : sigKey b2 f2 (⟨b, fid, t, conf, q⟩ : Sig E) <;>
      simp [hk, countSum, newContext]
  · push_neg at hfar
    rcases hfar with ⟨a, ha, hθ⟩
    rcases applySignal_update_of_near sim f now b fid q t conf st ⟨a, ha, hθ⟩ with
      ⟨c0, hfn, hθ0, heq⟩
    rw [heq]
    intro b2 f2
    have hc0f := mem_of_findNearest sim b fid q st.ctxs c0 hfn
    have hc0mem : c0 ∈ st.ctxs := (List.mem_filter.mp hc0f).1
    have hkey := sameKey_eq_of_mem_filter b fid c0 st.ctxs hc0f
    show countSum b2 f2 (updateById c0.id (updCtx f now t conf) st.ctxs)
      = sigCount b2 f2 (st.sigs ++ [⟨b, fid, t, conf, q⟩])
    rw [countSum_updateById b2 f2 (updCtx f now t conf) c0 st.ctxs hids.1 hc0mem
      (updCtx_bankId ..) (updCtx_factId ..) (updCtx_count ..)]
    rw [sigCount_snoc, h b2 f2]
    congr 1
    have : sameKey b2 f2 c0 = sigKey b2 f2 (⟨b, fid, t, conf, q⟩ : Sig E) := by
      simp [sameKey, sigKey, hkey.1, hkey.2]
    rw [this]

lemma acct_applyOps (sim : E → E → ℚ) (f : ℚ → ℚ) (ops : List (Op E))
    (st : Store E) (hids : idsOk st) (h : acct st) :
    idsOk (applyOps sim f ops st) ∧ acct (applyOps sim f ops st) := by
  induction ops generalizing st with
  | nil => exact ⟨hids, h⟩
  | cons o ops ih =>
      exact ih _ (idsOk_applySignal sim f o.now o.bankId o.factId o.q o.t o.conf st hids)
        (acct_applySignal sim f o.now o.bankId o.factId o.q o.t o.conf st hids h)

end Accounting

/-- C7: for every (bank, fact) and every sequence of applied signals, the
sum of `signal_count` over the stored contexts of the (bank, fact) equals
the number of audit Signal records for it; in particular two signals on the
same fact that resolve to two distinct contexts leave two contexts and a
fact-stats roll-up reporting signal count 2. -/
theorem claim_C7_signal_accounting :
    (∀ (E : Type) (sim : E → E → ℚ) (f : ℚ → ℚ) (ops : List (Op E)) (b fid : String),
        countSum b fid (applyOps sim f ops (emptyStore E)).ctxs
          = sigCount b fid (applyOps sim f ops (emptyStore E)).sigs)
    ∧ twoCtxRun.ctxs.length = 2
    ∧ (factStats twoCtxRun "b" "f").map (fun s => s.count) = some 2 := by
  refine ⟨?_, ?_, ?_⟩
  · intro En sim f ops b fid
    have hids : idsOk (emptyStore En) := by
      constructor
      · simp [emptyStore]
      · intro i hi
        simp [emptyStore] at hi
    have hacct : acct (emptyStore En) := by
      intro b2 f2
      simp [emptyStore, countSum, sigCount]
    exact (acct_applyOps sim f ops (emptyStore En) hids hacct).2 b fid
  · norm_num [twoCtxRun, applyOps, applySignal, createAndApply, findNearest,
      updCtx, updateById, newContext, clamp01, decayQ, weight, eta, thetaMerge,
      sameKey, emptyStore, simEq, noDecay, List.argmax, List.argAux]
  · norm_num [twoCtxRun, applyOps, applySignal, createAndApply, findNearest,
      updCtx, updateById, newContext, clamp01, decayQ, weight, eta, thetaMerge,
      sameKey, emptyStore, simEq, noDecay, List.argmax, List.argAux, factStats]

/-- C10: requesting fact stats for a (bank, fact) with no stored contexts
answers 404 with no body, while requesting bank usefulness stats for a bank
with no contexts and no signals answers 200 with both totals zero. -/
theorem claim_C10_stats_errors :
    (∀ (E : Type) (st : Store E) (b f : String),
        st.ctxs.filter (sameKey b f) = [] → factStatsResponse st b f = (404, none))
    ∧ (∀ (E : Type) (st : Store E) (b : String),
        st.ctxs.filter (fun c => c.bankId == b) = [] →
        st.sigs.filter (fun s => s.bankId == b) = [] →
        (bankStatsResponse st b).1 = 200
          ∧ (bankStats st b).totalFactsWithSignals = 0
          ∧ (bankStats st b).totalSignals = 0) := by
  constructor
  · intro En st b f h
    simp [factStatsResponse, factStats, h]
  · intro En st b h1 h2
    refine ⟨rfl, ?_, ?_⟩ <;> simp [bankStats, h1, h2]

/-- Witness for C10 at a concrete input: the empty store. -/
theorem claim_C10_stats_errors_witness :
    factStatsResponse (emptyStore ℕ) "b" "f" = (404, none)
    ∧ (bankStatsResponse (emptyStore ℕ) "b").1 = 200
    ∧ (bankStats (emptyStore ℕ) "b").totalFactsWithSignals = 0
    ∧ (bankStats (emptyStore ℕ) "b").totalSignals = 0 := by
  refine ⟨claim_C10_stats_errors.1 ℕ (emptyStore ℕ) "b" "f" (by simp [emptyStore]), ?_⟩
  exact claim_C10_stats_errors.2 ℕ (emptyStore ℕ) "b" (by simp [emptyStore])
    (by simp [emptyStore])

/-- C8: a signal submission containing an unrecognized signal type, a
confidence outside [0, 1], a missing query, or an empty signals list is
rejected with 422 and the store is returned untouched; a recall request
whose usefulness_weight or min_usefulness lies outside [0, 1] is rejected
with 422. -/
theorem claim_C8_validation :
    (∀ (E : Type) (sim : E → E → ℚ) (f : ℚ → ℚ) (now : ℚ) (embed : String → E)
        (b : String) (r : SignalReq) (st : Store E),
        ((∃ it ∈ r.signals, parseSignalType it.signalType = none)
          ∨ (∃ it ∈ r.signals, it.confidence < 0 ∨ 1 < it.confidence)
          ∨ (∃ it ∈ r.signals, it.query = none)
          ∨ r.signals = []) →
        handleSignal sim f now embed b r st = (422, st))
    ∧ (∀ w uMin : ℚ, (w < 0 ∨ 1 < w ∨ uMin < 0 ∨ 1 < uMin) →
        recallStatus w uMin = 422) := by
  constructor
  · intro En sim f now embed b r st hbad
    have hinv : validSignalReq r = false := by
      rcases hbad with ⟨it, hit, hp⟩ | ⟨it, hit, hc⟩ | ⟨it, hit, hq⟩ | hemp
      · have hval : validItem it = false := by
          simp [validItem, hp]
        unfold validSignalReq
        rw [List.all_eq_false.mpr ⟨it, hit, by simp [hval]⟩]
        simp
      · have hval : validItem it = false := by
          rcases hc with hc | hc
          · simp [validItem, decide_eq_false (not_le.mpr hc)]
          · simp [validItem, decide_eq_false (not_le.mpr hc)]
        unfold validSignalReq
        rw [List.all_eq_false.mpr ⟨it, hit, by simp [hval]⟩]
        simp
      · have hval : validItem it = false := by
          simp [validItem, hq]
        unfold validSignalReq
        rw [List.all_eq_false.mpr ⟨it, hit, by simp [hval]⟩]
        simp
      · simp [validSignalReq, hemp]
    simp [handleSignal, hinv]
  · intro w u h
    have hinv : validRecallParams w u = false := by
      rcases h with h | h | h | h
      · simp [validRecallParams, decide_eq_false (not_le.mpr h)]
      · simp [validRecallParams, decide_eq_false (not_le.mpr h)]
      · simp [validRecallParams, decide_eq_false (not_le.mpr h)]
      · simp [validRecallParams, decide_eq_false (not_le.mpr h)]
    simp [recallStatus, hinv]

/-- Witness for C8 at concrete inputs: a request with an unrecognized
signal type is answered 422 with the empty store unchanged, and a recall
with usefulness_weight 1.5 is answered 422. -/
theorem claim_C8_validation_witness :
    handleSignal simEq noDecay 0 (fun _ => 0) "b"
        ⟨[⟨"f", "bogus", 1/2, some "who"⟩]⟩ (emptyStore ℕ) = (422, emptyStore ℕ)
    ∧ recallStatus (3/2) 0 = 422 := by
  constructor
  · refine claim_C8_validation.1 ℕ simEq noDecay 0 (fun _ => 0) "b"
      ⟨[⟨"f", "bogus", 1/2, some "who"⟩]⟩ (emptyStore ℕ) (Or.inl ?_)
    exact ⟨⟨"f", "bogus", 1/2, some "who"⟩, by simp, by simp [parseSignalType]⟩
  · exact claim_C8_validation.2 (3/2) 0 (Or.inr (Or.inl (by norm_num)))

/-- Counterexample to C5 as stated: with `now = last_decay_at` the elapsed
time `Δt_days = max(0, 0/86400) = 0` makes the decay factor `exp(0) = 1`, so
a score strictly above neutral is returned unchanged, not strictly
smaller. -/
theorem claim_C5_decay_direction_counterexample :
    (1/2 : ℝ) < 9/10 ∧ ¬ decayScore (9/10) 0 0 < 9/10 := by
  have h : decayScore (9/10) 0 0 = 9/10 := by
    unfold decayScore
    rw [show ((0:ℝ) - 0) / 86400 = 0 by norm_num, max_self, mul_zero, Real.exp_zero]
    norm_num
  constructor
  · norm_num
  · rw [h]
    exact lt_irrefl _

/-- C5 amended: when strictly positive time has elapsed
(`last_decay_at < now`), decay moves every score strictly toward neutral:
strictly smaller for score > 0.5, strictly larger for score < 0.5; when no
time has elapsed (`now ≤ last_decay_at`, so `Δt_days = 0`) every score is
returned unchanged; and a neutral score 0.5 is unchanged in all cases. -/
theorem claim_C5_decay_direction :
    (∀ s t now : ℝ, t < now →
      (1/2 < s → decayScore s t now < s) ∧ (s < 1/2 → s < decayScore s t now))
    ∧ (∀ s t now : ℝ, now ≤ t → decayScore s t now = s)
    ∧ (∀ t now : ℝ, decayScore (1/2) t now = 1/2) := by
  refine ⟨?_, ?_, ?_⟩
  · intro s t now ht
    have hd : (0:ℝ) < (now - t) / 86400 := by
      apply div_pos (by linarith) (by norm_num)
    have hmax : max (0:ℝ) ((now - t) / 86400) = (now - t) / 86400 := max_eq_right hd.le
    have he1 : Real.exp (-(1/100) * ((now - t) / 86400)) < 1 := by
      rw [Real.exp_lt_one_iff]
      nlinarith [hd]
    have he0 : (0:ℝ) < Real.exp (-(1/100) * ((now - t) / 86400)) := Real.exp_pos _
    unfold decayScore
    rw [hmax]
    constructor
    · intro hs
      nlinarith [he1, he0, hs]
    · intro hs
      nlinarith [he1, he0, hs]
  · intro s t now ht
    have hmax : max (0:ℝ) ((now - t) / 86400) = 0 := by
      apply max_eq_left
      apply div_nonpos_of_nonpos_of_nonneg (by linarith)
      norm_num
    unfold decayScore
    rw [hmax, mul_zero, Real.exp_zero]
    ring
  · intro t now
    unfold decayScore
    ring

/-- Witness for the amended C5 at concrete inputs: a score of 0.9 decayed
over one day is strictly smaller than 0.9, and with no elapsed time the
score 0.9 is returned unchanged. -/
theorem claim_C5_decay_direction_witness :
    decayScore (9/10) 0 86400 < 9/10 ∧ decayScore (9/10) 86400 86400 = 9/10 :=
  ⟨(claim_C5_decay_direction.1 (9/10) 0 86400 (by norm_num)).1 (by norm_num),
    claim_C5_decay_direction.2.1 (9/10) 86400 86400 (by norm_num)⟩

/-- C6: applying decay twice in immediate succession (no elapsed time
between the two calls) produces the same score as applying it once - the
difference is exactly 0, hence below 1e-9. -/
theorem claim_C6_decay_idempotent :
    ∀ s t now : ℝ,
      |decayScore (decayScore s t now) now now - decayScore s t now|
        < 1/1000000000 := by
  intro s t now
  have h : decayScore (decayScore s t now) now now = decayScore s t now := by
    unfold decayScore
    rw [show (now - now) / 86400 = (0:ℝ) by norm_num, max_self, mul_zero,
      Real.exp_zero]
    ring
  rw [h, sub_self, abs_zero]
  norm_num

section BoostIdentity

variable {E : Type}

lemma usefulnessFor_nonneg (sim : E → E → ℚ) (f : ℚ → ℚ) (now : ℚ)
    (st : Store E) (b : String) (q : E) (sMin : ℚ) (fid : String)
    (hst : ∀ c ∈ st.ctxs, 0 ≤ c.score ∧ c.score ≤ 1)
    (hf : ∀ x, 0 ≤ f x ∧ f x ≤ 1) :
    0 ≤ usefulnessFor sim f now st b q sMin fid := by
  unfold usefulnessFor
  rcases hfn : findNearest sim b fid q st.ctxs with _ | c
  · norm_num
  · simp only []
    have hc : c ∈ st.ctxs :=
      (List.mem_filter.mp (mem_of_findNearest sim b fid q st.ctxs c hfn)).1
    have h1 := hst c hc
    have h2 := hf (max 0 ((now - c.lastDecayAt) / 86400))
    split
    · norm_num
    · unfold decayQ
      nlinarith [h1.1, h1.2, h2.1, h2.2]

end BoostIdentity

/-- C4: boosting is the identity on ordering when usefulness plays no role:
with `enabled = false` the base results are returned unchanged for every
input list, and with `enabled = true` and `usefulness_weight = 0` (the other
options at their defaults `min_usefulness = 0`, any similarity floor) the
output equals the ranked input exactly, given the spec's input contract that
`base_results` is ordered by base score (section 4.E) and the stored scores
and decay factors lie in [0, 1] (invariant 1 of section 3). -/
theorem claim_C4_boost_identity :
    (∀ (E : Type) (sim : E → E → ℚ) (f : ℚ → ℚ) (now : ℚ) (st : Store E)
        (b : String) (q : E) (opts : BoostOpts) (base : List RItem),
        opts.enabled = false → boost sim f now st b q opts base = base)
    ∧ (∀ (E : Type) (sim : E → E → ℚ) (f : ℚ → ℚ) (now : ℚ) (st : Store E)
        (b : String) (q : E) (sMin : ℚ) (base : List RItem),
        (∀ c ∈ st.ctxs, 0 ≤ c.score ∧ c.score ≤ 1) →
        (∀ x, 0 ≤ f x ∧ f x ≤ 1) →
        base.Pairwise (fun a c => c.base ≤ a.base) →
        boost sim f now st b q ⟨true, 0, 0, sMin⟩ base = base) := by
  constructor
  · intro En sim f now st b q opts base h
    simp [boost, h]
  · intro En sim f now st b q sMin base hst hf hsorted
    unfold boost
    rw [if_neg (by simp)]
    have hkeep : (base.map (fun r =>
          (r, usefulnessFor sim f now st b q sMin r.factId))).filter
            (fun p => decide ((0:ℚ) ≤ p.2))
        = base.map (fun r => (r, usefulnessFor sim f now st b q sMin r.factId)) := by
      apply List.filter_eq_self.mpr
      intro p hp
      rcases List.mem_map.mp hp with ⟨r, hr, rfl⟩
      simp only [decide_eq_true_eq]
      exact usefulnessFor_nonneg sim f now st b q sMin r.factId hst hf
    show ((((base.map (fun r =>
        (r, usefulnessFor sim f now st b q sMin r.factId))).filter
          (fun p => decide ((0:ℚ) ≤ p.2))).map
            (fun p => (p.1, finalScore 0 p.2 p.1.base))).insertionSort
              boostLE).map (fun p => p.1) = base
    rw [hkeep, List.map_map]
    have hmap : base.map ((fun p : RItem × ℚ => (p.1, finalScore 0 p.2 p.1.base))
          ∘ (fun r => (r, usefulnessFor sim f now st b q sMin r.factId)))
        = base.map (fun r => (r, r.base)) := by
      apply List.map_congr_left
      intro r hr
      simp only [Function.comp]
      norm_num [finalScore]
    rw [hmap]
    have hsorted2 : List.Sorted boostLE (base.map (fun r => (r, r.base))) := by
      show (base.map (fun r => (r, r.base))).Pairwise boostLE
      rw [List.pairwise_map]
      refine hsorted.imp ?_
      intro a c h
      rcases h.lt_or_eq with h2 | h2
      · exact Or.inl h2
      · exact Or.inr ⟨h2.symm, le_of_eq h2⟩
    rw [List.Sorted.insertionSort_eq hsorted2, List.map_map]
    rw [show ((fun p : RItem × ℚ => p.1) ∘ fun r : RItem => (r, r.base)) = id from rfl,
      List.map_id]

/-- Witness for C4 at concrete inputs: a disabled boost and an enabled
boost with weight 0 on a two-element ranked list, both over the empty
store. -/
theorem claim_C4_boost_identity_witness :
    boost simEq noDecay 0 (emptyStore ℕ) "b" 0 ⟨false, 3/10, 0, 7/10⟩
        [⟨"x", 1⟩] = [⟨"x", 1⟩]
    ∧ boost simEq noDecay 0 (emptyStore ℕ) "b" 0 ⟨true, 0, 0, 7/10⟩
        [⟨"x", 1⟩, ⟨"y", 0⟩] = [⟨"x", 1⟩, ⟨"y", 0⟩] := by
  constructor
  · exact claim_C4_boost_identity.1 ℕ simEq noDecay 0 (emptyStore ℕ) "b" 0
      ⟨false, 3/10, 0, 7/10⟩ [⟨"x", 1⟩] rfl
  · refine claim_C4_boost_identity.2 ℕ simEq noDecay 0 (emptyStore ℕ) "b" 0
      (7/10) [⟨"x", 1⟩, ⟨"y", 0⟩] ?_ ?_ ?_
    · intro c hc
      simp [emptyStore] at hc
    · intro x
      exact ⟨by norm_num [noDecay], by norm_num [noDecay]⟩
    · norm_num [List.pairwise_cons]

/-- C9: the migration creates `query_fact_usefulness` with exactly the
section-3 columns in order, `usefulness_score` defaulting to 0.5,
`signal_count` defaulting to 0, `query_embedding` a non-null vector of
dimension 384; it creates an HNSW index on `query_embedding` with the
cosine operator class and secondary indexes on `bank_id`, `fact_id` and the
composite `(bank_id, fact_id)`; and it adds a `query_embedding` column of
dimension 384 to the audit table `usefulness_signals`. -/
theorem claim_C9_migration_layout :
    queryFactUsefulnessColumns.map (fun c => c.name) = specSection3ColumnNames
    ∧ colByName "usefulness_score" queryFactUsefulnessColumns
        = some ⟨"usefulness_score", .float, false, some "0.5"⟩
    ∧ colByName "signal_count" queryFactUsefulnessColumns
        = some ⟨"signal_count", .integer, false, some "0"⟩
    ∧ colByName "query_embedding" queryFactUsefulnessColumns
        = some ⟨"query_embedding", .vector 384, false, none⟩
    ∧ (⟨"idx_query_fact_usefulness_embedding", "query_fact_usefulness",
        ["query_embedding"], some "hnsw", some "vector_cosine_ops"⟩ : TblIndex)
        ∈ migrationIndexes
    ∧ (⟨"idx_query_fact_usefulness_bank_id", "query_fact_usefulness",
        ["bank_id"], none, none⟩ : TblIndex) ∈ migrationIndexes
    ∧ (⟨"idx_query_fact_usefulness_fact_id", "query_fact_usefulness",
        ["fact_id"], none, none⟩ : TblIndex) ∈ migrationIndexes
    ∧ (⟨"idx_query_fact_usefulness_bank_fact", "query_fact_usefulness",
        ["bank_id", "fact_id"], none, none⟩ : TblIndex) ∈ migrationIndexes
    ∧ usefulnessSignalsAddedColumn.colType = ColType.vector 384 := by
  refine ⟨?_, ?_, ?_, ?_, ?_, ?_, ?_, ?_, rfl⟩
  · rfl
  · simp [colByName, queryFactUsefulnessColumns]
  · simp [colByName, queryFactUsefulnessColumns]
  · simp [colByName, queryFactUsefulnessColumns]
  · simp [migrationIndexes]
  · simp [migrationIndexes]
  · simp [migrationIndexes]
  · simp [migrationIndexes]

end Hindsight
